import Mathlib

/-!
Verification of the geometric/rendering core of the fan-engage frontend
(src/pages/match/[id].tsx and the spec's component design): homography
inversion, homogeneous point projection, the frame clock, the trajectory
trail builder, the style resolver, the drawn marker shapes and the
pitch-skeleton overlay.

JavaScript numbers are modelled as exact rationals (ℚ).  In this embedding
every value is finite, so `isFinite` is identically true; the source's
non-finiteness guards are kept (as `isFiniteQ`) so the control flow of the
embedded functions mirrors the source, but the non-finite branches are
vacuous.
-/

/-- JavaScript's `isFinite`, in the exact-rational embedding: every rational
is finite.  Kept so the guards of `invert3x3` and `projectPitchToImage`
mirror the source's `!isFinite(det)` / `!isFinite(w)` tests. -/
def isFiniteQ (_ : ℚ) : Prop := True

instance (q : ℚ) : Decidable (isFiniteQ q) := .isTrue trivial

/-- A 3×3 matrix of JavaScript numbers, row major: `mRC` is `H[R][C]` in the
source. -/
structure Mat3 where
  m00 : ℚ
  m01 : ℚ
  m02 : ℚ
  m10 : ℚ
  m11 : ℚ
  m12 : ℚ
  m20 : ℚ
  m21 : ℚ
  m22 : ℚ
deriving DecidableEq, Repr

/-- `invert3x3` from src/pages/match/[id].tsx (lines 261–280): cofactor
expansion; `null` (here `none`) when the determinant is non-finite or its
absolute value is below `1e-12`.  The source's locals `G`, `H2` and `I`
(line 265–267, `H2` being the mistyped cofactor the source recomputes as
`H3` right below) are never used in the returned matrix and are omitted. -/
def invert3x3 (H : Mat3) : Option Mat3 :=
  let a := H.m00; let b := H.m01; let c := H.m02
  let d := H.m10; let e := H.m11; let f := H.m12
  let g := H.m20; let h := H.m21; let i := H.m22
  let A := e*i - f*h
  let B := -(d*i - f*g)
  let C := d*h - e*g
  let D := -(b*i - c*h)
  let E := a*i - c*g
  let F := -(a*h - b*g)
  let G2 := b*f - c*e
  let H3 := -(a*f - c*d)
  let I2 := a*e - b*d
  let det := a*A + b*B + c*C
  if ¬ isFiniteQ det ∨ |det| < 1/10^12 then none
  else some ⟨A/det, D/det, G2/det, B/det, E/det, H3/det, C/det, F/det, I2/det⟩

/-- `projectPitchToImage` from src/pages/match/[id].tsx (lines 282–289):
multiply `[X,Y,1]ᵀ` by the matrix; `null` (here `none`) when the homogeneous
coordinate `w` is non-finite or `|w| < 1e-9`; otherwise `(x/w, y/w)`. -/
def projectPitchToImage (Hinv : Mat3) (X Y : ℚ) : Option (ℚ × ℚ) :=
  let x := Hinv.m00*X + Hinv.m01*Y + Hinv.m02*1
  let y := Hinv.m10*X + Hinv.m11*Y + Hinv.m12*1
  let w := Hinv.m20*X + Hinv.m21*Y + Hinv.m22*1
  if ¬ isFiniteQ w ∨ |w| < 1/10^9 then none
  else some (x / w, y / w)

/-- The textbook 3×3 determinant (spec side, for comparison with the code's
cofactor expansion). -/
def det3 (H : Mat3) : ℚ :=
  H.m00 * (H.m11*H.m22 - H.m12*H.m21)
  - H.m01 * (H.m10*H.m22 - H.m12*H.m20)
  + H.m02 * (H.m10*H.m21 - H.m11*H.m20)

/-- The textbook adjugate (transpose of the cofactor matrix) of a 3×3 matrix
(spec side). -/
def adjugate3 (H : Mat3) : Mat3 :=
  ⟨H.m11*H.m22 - H.m12*H.m21, -(H.m01*H.m22 - H.m02*H.m21), H.m01*H.m12 - H.m02*H.m11,
   -(H.m10*H.m22 - H.m12*H.m20), H.m00*H.m22 - H.m02*H.m20, -(H.m00*H.m12 - H.m02*H.m10),
   H.m10*H.m21 - H.m11*H.m20, -(H.m00*H.m21 - H.m01*H.m20), H.m00*H.m11 - H.m01*H.m10⟩

/-- Entrywise division of a matrix by a scalar. -/
def matScalarDiv (M : Mat3) (s : ℚ) : Mat3 :=
  ⟨M.m00/s, M.m01/s, M.m02/s, M.m10/s, M.m11/s, M.m12/s, M.m20/s, M.m21/s, M.m22/s⟩

/-- The determinant the source computes (`a*A + b*B + c*C`) is the textbook
determinant. -/
theorem detCode_eq (a b c d e f g h i : ℚ) :
    a * (e*i - f*h) + b * -(d*i - f*g) + c * (d*h - e*g)
      = det3 ⟨a, b, c, d, e, f, g, h, i⟩ := by
  simp only [det3]
  ring

/-- C1: `invert3x3` returns `none` exactly when the determinant is non-finite
or has absolute value below `1e-12`; otherwise it returns the adjugate
divided by the determinant.  (In the exact-rational embedding every entry of
the result is automatically finite, so the claim's "never contains
infinite/NaN entries" clause is vacuously true.) -/
theorem invert3x3_spec (H : Mat3) :
    invert3x3 H
      = (if ¬ isFiniteQ (det3 H) ∨ |det3 H| < 1/10^12 then none
         else some (matScalarDiv (adjugate3 H) (det3 H)))
    ∧ (invert3x3 H = none ↔ ¬ isFiniteQ (det3 H) ∨ |det3 H| < 1/10^12) := by
  obtain ⟨a, b, c, d, e, f, g, h, i⟩ := H
  have h1 : invert3x3 ⟨a, b, c, d, e, f, g, h, i⟩
      = (if ¬ isFiniteQ (det3 ⟨a, b, c, d, e, f, g, h, i⟩)
            ∨ |det3 ⟨a, b, c, d, e, f, g, h, i⟩| < 1/10^12 then none
         else some (matScalarDiv (adjugate3 ⟨a, b, c, d, e, f, g, h, i⟩)
            (det3 ⟨a, b, c, d, e, f, g, h, i⟩))) := by
    simp only [invert3x3]
    rw [detCode_eq a b c d e f g h i]
    split_ifs with hc
    · rfl
    · simp only [matScalarDiv, adjugate3]
  refine ⟨h1, ?_⟩
  rw [h1]
  split_ifs with hc
  · exact iff_of_true rfl hc
  · exact iff_of_false (by simp) hc

/-- `M · (X, Y, W)` for a homogeneous 3-vector, row major (spec side). -/
def matVec3 (M : Mat3) (v : ℚ × ℚ × ℚ) : ℚ × ℚ × ℚ :=
  (M.m00*v.1 + M.m01*v.2.1 + M.m02*v.2.2,
   M.m10*v.1 + M.m11*v.2.1 + M.m12*v.2.2,
   M.m20*v.1 + M.m21*v.2.1 + M.m22*v.2.2)

/-- C2: `projectPitchToImage M X Y` computes `(x,y,w) = M · (X,Y,1)`, returns
`none` exactly when `w` is non-finite or `|w| < 1e-9`, and otherwise returns
`(x/w, y/w)`. -/
theorem projectPitchToImage_spec (M : Mat3) (X Y : ℚ) :
    (projectPitchToImage M X Y = none
      ↔ ¬ isFiniteQ (matVec3 M (X, Y, 1)).2.2
        ∨ |(matVec3 M (X, Y, 1)).2.2| < 1/10^9)
    ∧ projectPitchToImage M X Y
      = (if ¬ isFiniteQ (matVec3 M (X, Y, 1)).2.2
            ∨ |(matVec3 M (X, Y, 1)).2.2| < 1/10^9 then none
         else some ((matVec3 M (X, Y, 1)).1 / (matVec3 M (X, Y, 1)).2.2,
                    (matVec3 M (X, Y, 1)).2.1 / (matVec3 M (X, Y, 1)).2.2)) := by
  obtain ⟨a, b, c, d, e, f, g, h, i⟩ := M
  have h1 : projectPitchToImage ⟨a, b, c, d, e, f, g, h, i⟩ X Y
      = (if ¬ isFiniteQ (matVec3 ⟨a, b, c, d, e, f, g, h, i⟩ (X, Y, 1)).2.2
            ∨ |(matVec3 ⟨a, b, c, d, e, f, g, h, i⟩ (X, Y, 1)).2.2| < 1/10^9 then none
         else some ((matVec3 ⟨a, b, c, d, e, f, g, h, i⟩ (X, Y, 1)).1
                      / (matVec3 ⟨a, b, c, d, e, f, g, h, i⟩ (X, Y, 1)).2.2,
                    (matVec3 ⟨a, b, c, d, e, f, g, h, i⟩ (X, Y, 1)).2.1
                      / (matVec3 ⟨a, b, c, d, e, f, g, h, i⟩ (X, Y, 1)).2.2)) := by
    simp only [projectPitchToImage, matVec3]
  refine ⟨?_, h1⟩
  rw [h1]
  split_ifs with hc
  · exact iff_of_true rfl hc
  · exact iff_of_false (by simp) hc

/-- The identity matrix, a concrete well-conditioned homography used by the
witnesses below. -/
def idMat : Mat3 := ⟨1, 0, 0, 0, 1, 0, 0, 0, 1⟩

/-- Abstract cancellation core of the round trip: if the adjugate-row
combinations of `(x, y, w)` recover `D·X` (numerator row) and `D`
(homogeneous row), the composed fraction equals `X`. -/
theorem frac_combine (A B2 G2 C F I2 D w x y X : ℚ) (hD : D ≠ 0) (hw : w ≠ 0)
    (hnum : A*x + B2*y + G2*w = D * X)
    (hden : C*x + F*y + I2*w = D)
    (hw2 : C/D*(x/w) + F/D*(y/w) + I2/D*1 ≠ 0) :
    (A/D*(x/w) + B2/D*(y/w) + G2/D*1) / (C/D*(x/w) + F/D*(y/w) + I2/D*1) = X := by
  rw [div_eq_iff hw2]
  field_simp
  linear_combination D * hnum - D * X * hden

/-- C3: for a well-conditioned matrix `H` (`|det| > 1e-6`), projecting a
point forward through `H` and the result back through `invert3x3 H` (when
both projections succeed) returns the original point within `1e-6` in each
coordinate (it is in fact exact in the rational embedding). -/
theorem project_invert_roundtrip (H Hi : Mat3) (X Y Q1 Q2 R1 R2 : ℚ)
    (hdet : 1/10^6 < |det3 H|)
    (hinv : invert3x3 H = some Hi)
    (hfwd : projectPitchToImage H X Y = some (Q1, Q2))
    (hback : projectPitchToImage Hi Q1 Q2 = some (R1, R2)) :
    |R1 - X| ≤ 1/10^6 ∧ |R2 - Y| ≤ 1/10^6 := by
  obtain ⟨a, b, c, d, e, f, g, h, i⟩ := H
  have hD0 : det3 ⟨a, b, c, d, e, f, g, h, i⟩ ≠ 0 := by
    intro h0
    rw [h0] at hdet
    norm_num at hdet
  -- recover the inverse matrix from `hinv`
  simp only [invert3x3] at hinv
  rw [detCode_eq a b c d e f g h i] at hinv
  rw [if_neg ?hg] at hinv
  case hg =>
    push_neg
    refine ⟨trivial, ?_⟩
    have : (1 : ℚ)/10^12 ≤ 1/10^6 := by norm_num
    linarith
  obtain rfl : Hi = _ := (Option.some.inj hinv).symm
  -- recover the forward projection from `hfwd`
  simp only [projectPitchToImage] at hfwd
  split at hfwd
  case isTrue => exact absurd hfwd (by simp)
  case isFalse hgw =>
  have hw0 : g*X + h*Y + i*1 ≠ 0 := by
    intro h0
    exact hgw (Or.inr (by rw [h0]; norm_num))
  have hQ := Option.some.inj hfwd
  rw [Prod.mk.injEq] at hQ
  obtain ⟨rfl, rfl⟩ := hQ
  -- recover the backward projection from `hback`
  simp only [projectPitchToImage] at hback
  split at hback
  case isTrue => exact absurd hback (by simp)
  case isFalse hgw2 =>
  have hw20 :
      (d*h - e*g) / det3 ⟨a, b, c, d, e, f, g, h, i⟩
          * ((a*X + b*Y + c*1) / (g*X + h*Y + i*1))
        + -(a*h - b*g) / det3 ⟨a, b, c, d, e, f, g, h, i⟩
          * ((d*X + e*Y + f*1) / (g*X + h*Y + i*1))
        + (a*e - b*d) / det3 ⟨a, b, c, d, e, f, g, h, i⟩ * 1 ≠ 0 := by
    intro h0
    exact hgw2 (Or.inr (by rw [h0]; norm_num))
  have hR := Option.some.inj hback
  rw [Prod.mk.injEq] at hR
  obtain ⟨rfl, rfl⟩ := hR
  constructor
  · have hx : ((e*i - f*h) / det3 ⟨a, b, c, d, e, f, g, h, i⟩
          * ((a*X + b*Y + c*1) / (g*X + h*Y + i*1))
        + -(b*i - c*h) / det3 ⟨a, b, c, d, e, f, g, h, i⟩
          * ((d*X + e*Y + f*1) / (g*X + h*Y + i*1))
        + (b*f - c*e) / det3 ⟨a, b, c, d, e, f, g, h, i⟩ * 1)
        / ((d*h - e*g) / det3 ⟨a, b, c, d, e, f, g, h, i⟩
          * ((a*X + b*Y + c*1) / (g*X + h*Y + i*1))
        + -(a*h - b*g) / det3 ⟨a, b, c, d, e, f, g, h, i⟩
          * ((d*X + e*Y + f*1) / (g*X + h*Y + i*1))
        + (a*e - b*d) / det3 ⟨a, b, c, d, e, f, g, h, i⟩ * 1) = X :=
      frac_combine (e*i - f*h) (-(b*i - c*h)) (b*f - c*e)
        (d*h - e*g) (-(a*h - b*g)) (a*e - b*d)
        (det3 ⟨a, b, c, d, e, f, g, h, i⟩) (g*X + h*Y + i*1)
        (a*X + b*Y + c*1) (d*X + e*Y + f*1) X hD0 hw0
        (by simp only [det3]; ring) (by simp only [det3]; ring) hw20
    rw [hx, sub_self, abs_zero]
    norm_num
  · have hy : (-(d*i - f*g) / det3 ⟨a, b, c, d, e, f, g, h, i⟩
          * ((a*X + b*Y + c*1) / (g*X + h*Y + i*1))
        + (a*i - c*g) / det3 ⟨a, b, c, d, e, f, g, h, i⟩
          * ((d*X + e*Y + f*1) / (g*X + h*Y + i*1))
        + -(a*f - c*d) / det3 ⟨a, b, c, d, e, f, g, h, i⟩ * 1)
        / ((d*h - e*g) / det3 ⟨a, b, c, d, e, f, g, h, i⟩
          * ((a*X + b*Y + c*1) / (g*X + h*Y + i*1))
        + -(a*h - b*g) / det3 ⟨a, b, c, d, e, f, g, h, i⟩
          * ((d*X + e*Y + f*1) / (g*X + h*Y + i*1))
        + (a*e - b*d) / det3 ⟨a, b, c, d, e, f, g, h, i⟩ * 1) = Y :=
      frac_combine (-(d*i - f*g)) (a*i - c*g) (-(a*f - c*d))
        (d*h - e*g) (-(a*h - b*g)) (a*e - b*d)
        (det3 ⟨a, b, c, d, e, f, g, h, i⟩) (g*X + h*Y + i*1)
        (a*X + b*Y + c*1) (d*X + e*Y + f*1) Y hD0 hw0
        (by simp only [det3]; ring) (by simp only [det3]; ring) hw20
    rw [hy, sub_self, abs_zero]
    norm_num

/-- Witness for C3 at the identity homography and the point `(3, 4)`: both
projections succeed and the round trip is exact. -/
theorem project_invert_roundtrip_witness :
    |(3 : ℚ) - 3| ≤ 1/10^6 ∧ |(4 : ℚ) - 4| ≤ 1/10^6 :=
  project_invert_roundtrip idMat idMat 3 4 3 4 3 4
    (by norm_num [det3, idMat])
    (by norm_num [invert3x3, isFiniteQ, idMat, Mat3.mk.injEq])
    (by norm_num [projectPitchToImage, isFiniteQ, idMat, Prod.mk.injEq])
    (by norm_num [projectPitchToImage, isFiniteQ, idMat, Prod.mk.injEq])

/-- The frame clock from src/pages/match/[id].tsx line 388:
`Math.floor(video.currentTime * 25)` — 25 Hz sampling. -/
def frameIndex (time : ℚ) : ℤ := ⌊time * 25⌋

/-- One entry of a segment's `keypoints_img`: a named image-pixel point. -/
structure Keypoint where
  name : String
  x : ℚ
  y : ℚ
deriving DecidableEq, Repr

/-- A homography segment as delivered to the page: an inclusive frame range,
the image→pitch matrix `H` and the measured image keypoints. -/
structure HomographySegment where
  frame_start : ℤ
  frame_end : ℤ
  H : Mat3
  keypoints_img : List Keypoint
deriving DecidableEq, Repr

/-- Segment selection from src/pages/match/[id].tsx line 394:
`homography.find(s => t >= s.frame_start && t <= s.frame_end)`. -/
def selectSegment (segs : List HomographySegment) (t : ℤ) : Option HomographySegment :=
  segs.find? (fun s => decide (s.frame_start ≤ t) && decide (t ≤ s.frame_end))

/-- `List.find?` returns `some a` exactly when the list splits as
`l1 ++ a :: l2` with the predicate false on all of `l1` and true at `a`
(first match in listed order). -/
theorem find?_eq_some_split {α : Type} (p : α → Bool) :
    ∀ (l : List α) (a : α),
      l.find? p = some a
        ↔ ∃ l1 l2, l = l1 ++ a :: l2 ∧ p a = true ∧ ∀ b ∈ l1, p b = false := by
  intro l
  induction l with
  | nil =>
    intro a
    simp
  | cons x l ih =>
    intro a
    by_cases hx : p x
    · rw [List.find?_cons_of_pos _ hx]
      constructor
      · intro hs
        obtain rfl := Option.some.inj hs
        exact ⟨[], l, rfl, hx, by simp⟩
      · rintro ⟨l1, l2, heq, hpa, hfalse⟩
        cases l1 with
        | nil =>
          simp only [List.nil_append, List.cons.injEq] at heq
          rw [heq.1]
        | cons y l1 =>
          simp only [List.cons_append, List.cons.injEq] at heq
          have hfx := hfalse y (by simp)
          rw [← heq.1, hx] at hfx
          exact Bool.noConfusion hfx
    · rw [List.find?_cons_of_neg _ (by simpa using hx)]
      rw [ih a]
      constructor
      · rintro ⟨l1, l2, rfl, hpa, hf⟩
        refine ⟨x :: l1, l2, rfl, hpa, ?_⟩
        intro b hb
        rcases List.mem_cons.mp hb with rfl | hb
        · simpa using hx
        · exact hf b hb
      · rintro ⟨l1, l2, heq, hpa, hf⟩
        cases l1 with
        | nil =>
          simp only [List.nil_append, List.cons.injEq] at heq
          rw [← heq.1] at hpa
          exact absurd hpa (by simpa using hx)
        | cons y l1 =>
          simp only [List.cons_append, List.cons.injEq] at heq
          refine ⟨l1, l2, heq.2, hpa, ?_⟩
          intro b hb
          exact hf b (by simp [hb])

/-- Example segment `{frame_start := 0, frame_end := 99}` from the spec's
boundary test. -/
def seg0_99 : HomographySegment := ⟨0, 99, idMat, []⟩

/-- Example segment `{frame_start := 100, frame_end := 199}` from the spec's
boundary test. -/
def seg100_199 : HomographySegment := ⟨100, 199, idMat, []⟩

/-- An overlapping pair: `[{0,150},{100,199}]` both contain frame 120. -/
def segOverlapA : HomographySegment := ⟨0, 150, idMat, []⟩

/-- Second element of the overlapping pair. -/
def segOverlapB : HomographySegment := ⟨100, 199, idMat, []⟩

/-- C4: the frame clock maps `1.0 s ↦ 25` and `0.999 s ↦ 24`; segment
selection is first-match in listed order over inclusive ranges (`99` picks
the first of `[{0,99},{100,199}]`, `100` the second, and on the overlapping
pair `[{0,150},{100,199}]` frame `120` picks the first); no containing
segment means no selection. -/
theorem frameClock_selectSegment_spec :
    frameIndex 1 = 25
    ∧ frameIndex (999/1000) = 24
    ∧ selectSegment [seg0_99, seg100_199] 99 = some seg0_99
    ∧ selectSegment [seg0_99, seg100_199] 100 = some seg100_199
    ∧ selectSegment [segOverlapA, segOverlapB] 120 = some segOverlapA
    ∧ (∀ segs t s, selectSegment segs t = some s
        ↔ ∃ l1 l2, segs = l1 ++ s :: l2
            ∧ (s.frame_start ≤ t ∧ t ≤ s.frame_end)
            ∧ ∀ s2 ∈ l1, ¬ (s2.frame_start ≤ t ∧ t ≤ s2.frame_end))
    ∧ (∀ segs t, selectSegment segs t = none
        ↔ ∀ s ∈ segs, ¬ (s.frame_start ≤ t ∧ t ≤ s.frame_end)) := by
  refine ⟨?_, ?_, ?_, ?_, ?_, ?_, ?_⟩
  · norm_num [frameIndex]
  · norm_num [frameIndex, Int.floor_eq_iff]
  · simp [selectSegment, seg0_99, seg100_199]
  · simp [selectSegment, seg0_99, seg100_199]
  · simp [selectSegment, segOverlapA, segOverlapB]
  · intro segs t s
    rw [selectSegment, find?_eq_some_split]
    refine exists_congr fun l1 => exists_congr fun l2 => and_congr_right fun _ => ?_
    constructor
    · rintro ⟨hpa, hf⟩
      refine ⟨by simpa using hpa, ?_⟩
      intro s2 hs2
      simpa using hf s2 hs2
    · rintro ⟨hpa, hf⟩
      refine ⟨by simpa using hpa, ?_⟩
      intro s2 hs2
      simpa using hf s2 hs2
  · intro segs t
    rw [selectSegment, List.find?_eq_none]
    constructor
    · intro hf s hs
      simpa using hf s hs
    · intro hf s hs
      simpa using hf s hs

/-- A detection row as typed in src/pages/match/[id].tsx (lines 217–224). -/
structure Detection where
  frame_id : ℤ
  filename : String
  class_name : String
  conf : ℚ
  x1 : ℚ
  y1 : ℚ
  x2 : ℚ
  y2 : ℚ
  object_id : Option ℤ
deriving DecidableEq, Repr

/-- `const TRAIL_WINDOW = 20` (src/pages/match/[id].tsx line 231). -/
def TRAIL_WINDOW : ℤ := 20

/-- One trail point as pushed by the source: `{x: cx, y: cy, frame: f}`. -/
structure TrailPt where
  x : ℚ
  y : ℚ
  frame : ℤ
deriving DecidableEq, Repr

/-- The integers from `lo` to `hi` inclusive, ascending (the `for` loop's
iteration domain). -/
def intRange (lo hi : ℤ) : List ℤ :=
  if lo ≤ hi then (List.range ((hi - lo).toNat + 1)).map (fun (k : ℕ) => lo + (k : ℤ)) else []

/-- The frames the trail loop visits:
`for (let f = Math.max(0, t - TRAIL_WINDOW); f <= t; f++)`. -/
def trailFrames (t : ℤ) : List ℤ := intRange (max 0 (t - TRAIL_WINDOW)) t

/-- The trail of object `o` as built by src/pages/match/[id].tsx lines
479–489: per frame `f` of the window, the detections with `frame_id === f`
and non-null `object_id` are filtered, and those keyed by `o` push their
scaled box centre `{x: cx, y: cy, frame: f}` onto `byId[o]`. -/
def trailFor (dets : List Detection) (t : ℤ) (wF hF : ℚ) (o : ℤ) : List TrailPt :=
  (trailFrames t).flatMap fun f =>
    ((dets.filter fun d => decide (d.frame_id = f) && !(decide (d.object_id = none))).filter
        fun d => decide (d.object_id = some o)).map
      fun d => ⟨(d.x1 + d.x2) / 2 * wF, (d.y1 + d.y2) / 2 * hF, f⟩

/-- The rendering decision of lines 490–495: a trail is drawn unless it has
fewer than 2 points or no detection carries its object id
(`detections.find(d => d.object_id === Number(id))`). -/
def trailRendered (dets : List Detection) (t : ℤ) (wF hF : ℚ) (o : ℤ) : Bool :=
  !(decide ((trailFor dets t wF hF o).length < 2))
    && (dets.find? fun d => decide (d.object_id = some o)).isSome

/-- The claim's window predicate: `max(0, t - 20) ≤ frame_id ≤ t`. -/
def inTrailWindow (t : ℤ) (d : Detection) : Prop :=
  max 0 (t - TRAIL_WINDOW) ≤ d.frame_id ∧ d.frame_id ≤ t

instance (t : ℤ) (d : Detection) : Decidable (inTrailWindow t d) :=
  inferInstanceAs (Decidable (_ ∧ _))

/-- The claim's per-detection trail point: scaled box centre, at the
detection's own frame. -/
def trailMk (wF hF : ℚ) (d : Detection) : TrailPt :=
  ⟨(d.x1 + d.x2) / 2 * wF, (d.y1 + d.y2) / 2 * hF, d.frame_id⟩

/-- Membership in `intRange` is the inclusive interval. -/
theorem mem_intRange (lo hi x : ℤ) : x ∈ intRange lo hi ↔ lo ≤ x ∧ x ≤ hi := by
  unfold intRange
  split_ifs with hle
  · constructor
    · intro hx
      obtain ⟨k, hk, hkx⟩ := List.mem_map.mp hx
      rw [List.mem_range] at hk
      omega
    · rintro ⟨h1, h2⟩
      exact List.mem_map.mpr ⟨(x - lo).toNat, List.mem_range.mpr (by omega), by omega⟩
  · refine iff_of_false (List.not_mem_nil x) ?_
    omega

/-- `intRange` has no duplicates. -/
theorem intRange_nodup (lo hi : ℤ) : (intRange lo hi).Nodup := by
  unfold intRange
  split_ifs
  · refine List.Nodup.map ?_ (List.nodup_range _)
    intro k1 k2 hk
    simp only at hk
    omega
  · exact List.nodup_nil

/-- `intRange` is strictly ascending. -/
theorem intRange_sorted (lo hi : ℤ) : (intRange lo hi).Pairwise (· < ·) := by
  unfold intRange
  split_ifs
  · exact List.Pairwise.map _ (fun hk => by omega) (List.pairwise_lt_range _)
  · exact List.Pairwise.nil

/-- Filtering a list by two disjoint predicates and appending is a
permutation of filtering by their union. -/
theorem filter_disjoint_perm {α : Type} (p1 p2 p : α → Bool)
    (hunion : ∀ x, p x = (p1 x || p2 x))
    (hdisj : ∀ x, ¬ (p1 x = true ∧ p2 x = true)) :
    ∀ l : List α, List.Perm (l.filter p1 ++ l.filter p2) (l.filter p) := by
  intro l
  induction l with
  | nil => simp
  | cons x l ih =>
    by_cases h1 : p1 x
    · have h2 : ¬ (p2 x = true) := fun h2 => hdisj x ⟨h1, h2⟩
      have hp : p x = true := by rw [hunion]; simp [h1]
      rw [List.filter_cons_of_pos h1, List.filter_cons_of_neg (by simpa using h2),
        List.filter_cons_of_pos hp, List.cons_append]
      exact ih.cons x
    · by_cases h2 : p2 x
      · have hp : p x = true := by rw [hunion]; simp [h2]
        rw [List.filter_cons_of_neg (by simpa using h1), List.filter_cons_of_pos h2,
          List.filter_cons_of_pos hp]
        exact List.perm_middle.trans (ih.cons x)
      · have hp : ¬ (p x = true) := by rw [hunion]; simp [h1, h2]
        rw [List.filter_cons_of_neg (by simpa using h1),
          List.filter_cons_of_neg (by simpa using h2),
          List.filter_cons_of_neg (by simpa using hp)]
        exact ih

/-- Collecting per-frame filtered detections over a duplicate-free frame list
is a permutation of filtering by membership of the frame in the list. -/
theorem flatMap_filter_perm {α : Type} (key : α → ℤ) (q : α → Bool) :
    ∀ (frames : List ℤ), frames.Nodup → ∀ l : List α,
      List.Perm (frames.flatMap fun f => l.filter fun d => decide (key d = f) && q d)
        (l.filter fun d => decide (key d ∈ frames) && q d) := by
  intro frames
  induction frames with
  | nil =>
    intro _ l
    simp
  | cons f fs ih =>
    intro hnd l
    obtain ⟨hf, hfs⟩ := List.nodup_cons.mp hnd
    rw [List.flatMap_cons]
    refine List.Perm.trans (List.Perm.append_left _ (ih hfs l)) ?_
    refine filter_disjoint_perm _ _ _ (fun x => ?_) (fun x => ?_) l
    · by_cases h1 : key x = f <;> by_cases h2 : key x ∈ fs <;>
        simp [h1, h2, List.mem_cons]
    · rintro ⟨h1, h2⟩
      simp only [Bool.and_eq_true, decide_eq_true_eq] at h1 h2
      exact hf (h1.1 ▸ h2.1)

/-- The trail of object `o` is a permutation of the claim's description: the
scaled box centres of exactly the detections with `object_id = o` and
`frame_id` in the inclusive window `[max(0, t−20), t]`, duplicates kept. -/
theorem trailFor_perm (dets : List Detection) (t : ℤ) (wF hF : ℚ) (o : ℤ) :
    List.Perm (trailFor dets t wF hF o)
      ((dets.filter fun d => decide (inTrailWindow t d) && decide (d.object_id = some o)).map
        (trailMk wF hF)) := by
  unfold trailFor
  have h1 : ∀ f : ℤ,
      ((dets.filter fun d => decide (d.frame_id = f) && !(decide (d.object_id = none))).filter
          fun d => decide (d.object_id = some o)).map
        (fun d => (⟨(d.x1 + d.x2) / 2 * wF, (d.y1 + d.y2) / 2 * hF, f⟩ : TrailPt))
      = (dets.filter fun d => decide (d.frame_id = f) && decide (d.object_id = some o)).map
          (trailMk wF hF) := by
    intro f
    rw [List.filter_filter]
    have h2 : ∀ d ∈ dets,
        (decide (d.object_id = some o)
            && (decide (d.frame_id = f) && !(decide (d.object_id = none))))
          = (decide (d.frame_id = f) && decide (d.object_id = some o)) := by
      intro d _
      cases hio : d.object_id with
      | none => simp [hio]
      | some v => simp [hio, Bool.and_comm]
    rw [List.filter_congr h2]
    apply List.map_congr_left
    intro d hd
    have hdf : d.frame_id = f := by
      have := (List.mem_filter.mp hd).2
      simp only [Bool.and_eq_true, decide_eq_true_eq] at this
      exact this.1
    simp [trailMk, hdf]
  simp only [h1]
  rw [← List.map_flatMap]
  refine List.Perm.trans (List.Perm.map _
    (flatMap_filter_perm (fun d => d.frame_id) _ (trailFrames t)
      (intRange_nodup _ _) dets)) ?_
  have h3 : ∀ d ∈ dets,
      (decide (d.frame_id ∈ trailFrames t) && decide (d.object_id = some o))
        = (decide (inTrailWindow t d) && decide (d.object_id = some o)) := by
    intro d _
    have hiff : (d.frame_id ∈ trailFrames t) ↔ inTrailWindow t d := by
      rw [trailFrames, mem_intRange]
      exact Iff.rfl
    rw [decide_eq_decide.mpr hiff]
  rw [List.filter_congr h3]

/-- Concatenating blocks of constant frame over a strictly ascending frame
list yields a list whose `frame` fields are non-decreasing. -/
theorem flatMap_pairwise_frame (block : ℤ → List TrailPt)
    (hblock : ∀ f p, p ∈ block f → p.frame = f) :
    ∀ frames : List ℤ, frames.Pairwise (· < ·) →
      (frames.flatMap block).Pairwise (fun p q => p.frame ≤ q.frame) := by
  intro frames
  induction frames with
  | nil =>
    intro _
    simp
  | cons f fs ih =>
    intro hp
    obtain ⟨hf, hfs⟩ := List.pairwise_cons.mp hp
    rw [List.flatMap_cons, List.pairwise_append]
    refine ⟨?_, ih hfs, ?_⟩
    · refine List.pairwise_of_forall_mem_list ?_
      intro a ha b hb
      rw [hblock f a ha, hblock f b hb]
    · intro a ha b hb
      obtain ⟨f2, hf2, hb2⟩ := List.mem_flatMap.mp hb
      rw [hblock f a ha, hblock f2 b hb2]
      exact le_of_lt (hf f2 hf2)

/-- The trail's points appear in non-decreasing frame order. -/
theorem trailFor_sorted (dets : List Detection) (t : ℤ) (wF hF : ℚ) (o : ℤ) :
    (trailFor dets t wF hF o).Pairwise (fun p q => p.frame ≤ q.frame) := by
  unfold trailFor
  refine flatMap_pairwise_frame _ ?_ _ ?_
  · intro f p hp
    obtain ⟨d, -, rfl⟩ := List.mem_map.mp hp
    rfl
  · exact intRange_sorted _ _

/-- A trail is rendered exactly when it has at least 2 points: the source's
extra guard (`detections.find(d => d.object_id === Number(id))`) cannot fail
for a nonempty trail, whose points all come from such detections. -/
theorem trailRendered_iff (dets : List Detection) (t : ℤ) (wF hF : ℚ) (o : ℤ) :
    trailRendered dets t wF hF o = true ↔ 2 ≤ (trailFor dets t wF hF o).length := by
  unfold trailRendered
  constructor
  · intro hb
    simp only [Bool.and_eq_true, Bool.not_eq_true', decide_eq_false_iff_not] at hb
    omega
  · intro hlen
    have hne : trailFor dets t wF hF o ≠ [] := by
      intro h0
      rw [h0] at hlen
      simp at hlen
    obtain ⟨p, hp⟩ := List.exists_mem_of_ne_nil _ hne
    have hmem := (List.Perm.mem_iff (trailFor_perm dets t wF hF o)).mp hp
    obtain ⟨d, hd, -⟩ := List.mem_map.mp hmem
    obtain ⟨hddets, hdpred⟩ := List.mem_filter.mp hd
    simp only [Bool.and_eq_true, decide_eq_true_eq] at hdpred
    have hfind : (dets.find? fun d2 => decide (d2.object_id = some o)).isSome :=
      List.find?_isSome.mpr ⟨d, hddets, by simp [hdpred.2]⟩
    simp only [Bool.and_eq_true, Bool.not_eq_true', decide_eq_false_iff_not, hfind,
      and_true]
    omega

/-- Example detection for object 7 at frame 29 (outside the window of
`t = 50`). -/
def d29 : Detection := ⟨29, "", "player", 1, 0, 0, 0, 0, some 7⟩

/-- Example detection for object 7 at frame 30 (inside the window of
`t = 50`). -/
def d30 : Detection := ⟨30, "", "player", 1, 0, 0, 0, 0, some 7⟩

/-- C5: the trail builder collects exactly the box centres of detections of
object `o` whose frame lies in the inclusive window `[max(0, t−20), t]`
(duplicates within one frame all kept: the trail is a permutation of the
window-filtered detections' centres), in non-decreasing frame order; a trail
is rendered iff it has at least 2 points; and with `t = 50` a frame-29
detection is excluded while a frame-30 one is included. -/
theorem buildTrails_spec :
    (∀ (dets : List Detection) (t : ℤ) (wF hF : ℚ) (o : ℤ),
      List.Perm (trailFor dets t wF hF o)
        ((dets.filter fun d =>
            decide (inTrailWindow t d) && decide (d.object_id = some o)).map
          (trailMk wF hF)))
    ∧ (∀ (dets : List Detection) (t : ℤ) (wF hF : ℚ) (o : ℤ),
      (trailFor dets t wF hF o).Pairwise fun p q => p.frame ≤ q.frame)
    ∧ (∀ (dets : List Detection) (t : ℤ) (wF hF : ℚ) (o : ℤ),
      trailRendered dets t wF hF o = true ↔ 2 ≤ (trailFor dets t wF hF o).length)
    ∧ List.Perm (trailFor [d29, d30] 50 1 1 7) [⟨0, 0, 30⟩] := by
  refine ⟨trailFor_perm, trailFor_sorted, trailRendered_iff, ?_⟩
  refine List.Perm.trans (trailFor_perm [d29, d30] 50 1 1 7) ?_
  have hfilter : ([d29, d30].filter fun d =>
      decide (inTrailWindow 50 d) && decide (d.object_id = some 7)) = [d30] := by
    rw [List.filter_cons_of_neg (by decide), List.filter_cons_of_pos (by decide),
      List.filter_nil]
  rw [hfilter]
  have hmk : trailMk 1 1 d30 = ⟨0, 0, 30⟩ := by
    simp [trailMk, d30]
  simp [hmk]

/-- JavaScript's `toLowerCase()` on the ASCII class names this page uses:
lower each character. -/
def strToLower (s : String) : String := ⟨s.data.map Char.toLower⟩

/-- A `{stroke, fill}` CSS color pair. -/
structure ColorPair where
  stroke : String
  fill : String
deriving DecidableEq, Repr

/-- The `switch` body of `getColorForClass` (src/pages/match/[id].tsx lines
235–248), on the already-lowered class name. -/
def classColorOfLower (s : String) : ColorPair :=
  if s = "referee" then ⟨"#FFD700", "rgba(255, 215, 0, 0.15)"⟩
  else if s = "player" then ⟨"#f87171", "rgba(248, 113, 113, 0.15)"⟩
  else if s = "goalkeeper" then ⟨"#00FFFF", "rgba(0, 255, 255, 0.15)"⟩
  else if s = "ball" then ⟨"#FFA500", "rgba(255, 165, 0, 0.15)"⟩
  else ⟨"#60a5fa", "rgba(96, 165, 250, 0.15)"⟩

/-- `getColorForClass`: `switch (className.toLowerCase()) { ... }`. -/
def getColorForClass (className : String) : ColorPair :=
  classColorOfLower (strToLower className)

/-- `TEAM_COLORS` (lines 227–230): a record with entries for team ids 1 and
2 only. -/
def TEAM_COLORS (teamId : ℤ) : Option ColorPair :=
  if teamId = 1 then some ⟨"rgba(220,38,38,0.9)", "rgba(220,38,38,0.15)"⟩
  else if teamId = 2 then some ⟨"rgba(37,99,235,0.9)", "rgba(37,99,235,0.15)"⟩
  else none

/-- `getStyledColors` (lines 317–323).  `tracksMap[d.object_id]` is `none`
when absent; the JS guard `if (teamId && TEAM_COLORS[teamId])` needs
`teamId` truthy (present and nonzero) and a table entry. -/
def getStyledColors (tracksMap : ℤ → Option ℤ) (d : Detection) : ColorPair :=
  if strToLower d.class_name = "player" ∧ d.object_id ≠ none then
    match d.object_id.bind tracksMap with
    | some teamId =>
      match TEAM_COLORS teamId with
      | some pair => if teamId ≠ 0 then pair else getColorForClass d.class_name
      | none => getColorForClass d.class_name
    | none => getColorForClass d.class_name
  else getColorForClass d.class_name

/-- The claim's description of the style resolver: a player whose id
resolves to a team with a color-table entry gets that team's pair; every
other case gets the class default. -/
def styleSpec (tracksMap : ℤ → Option ℤ) (d : Detection) : ColorPair :=
  if strToLower d.class_name = "player" then
    match d.object_id with
    | some oid =>
      match tracksMap oid with
      | some teamId =>
        match TEAM_COLORS teamId with
        | some pair => pair
        | none => getColorForClass d.class_name
      | none => getColorForClass d.class_name
    | none => getColorForClass d.class_name
  else getColorForClass d.class_name

/-- A team id with a color-table entry is nonzero (the table only has 1 and
2), so the JS truthiness guard never rejects a mapped team. -/
theorem TEAM_COLORS_ne_zero (t : ℤ) (p : ColorPair) (h : TEAM_COLORS t = some p) :
    t ≠ 0 := by
  intro h0
  rw [h0] at h
  simp [TEAM_COLORS] at h

/-- C6: the style resolver behaves exactly as the claim describes: the
team's own fixed pair for a player with a mapped team that has a
color-table entry, the class default in every other case (so no team id
resolves to another team's pair). -/
theorem getStyledColors_spec (tracksMap : ℤ → Option ℤ) (d : Detection) :
    getStyledColors tracksMap d = styleSpec tracksMap d := by
  unfold getStyledColors styleSpec
  by_cases hp : strToLower d.class_name = "player"
  · cases ho : d.object_id with
    | none => simp [hp, ho]
    | some oid =>
      rw [if_pos ⟨hp, fun hsn => Option.noConfusion hsn⟩, if_pos hp]
      simp only [Option.some_bind]
      cases ht : tracksMap oid with
      | none => rfl
      | some teamId =>
        dsimp only
        cases htc : TEAM_COLORS teamId with
        | none => rfl
        | some pair =>
          dsimp only
          rw [if_pos (TEAM_COLORS_ne_zero teamId pair htc)]
  · rw [if_neg (fun hand => hp hand.1), if_neg hp]

/-- C10: style resolution only depends on the lowercased class name: both
the class-default lookup and the player test lower the class string first,
so changing only the letter case of `class_name` never changes the resolved
pair. -/
theorem style_case_invariant (tracksMap : ℤ → Option ℤ) (d : Detection) (c2 : String)
    (hc : strToLower c2 = strToLower d.class_name) :
    getStyledColors tracksMap { d with class_name := c2 }
      = getStyledColors tracksMap d := by
  unfold getStyledColors getColorForClass
  dsimp only
  rw [hc]

/-- Witness for C10: `"PLAYER"` and `"Player"` resolve identically with an
empty track map. -/
theorem style_case_invariant_witness :
    getStyledColors (fun _ => none) ⟨0, "", "PLAYER", 1, 0, 0, 0, 0, some 1⟩
      = getStyledColors (fun _ => none) ⟨0, "", "Player", 1, 0, 0, 0, 0, some 1⟩ :=
  style_case_invariant (fun _ => none) ⟨0, "", "Player", 1, 0, 0, 0, 0, some 1⟩
    "PLAYER" (by decide)

/-- The marker shape `drawBoxes` strokes for one current-frame detection. -/
inductive MarkerShape where
  | arc (cx cy rx ry startDeg endDeg : ℚ)
  | triangle (p1x p1y p2x p2y p3x p3y : ℚ)
deriving DecidableEq, Repr

/-- The per-detection marker of src/pages/match/[id].tsx lines 506–558: for
the ball class a downward-pointing triangle hanging from the box's top edge
(`topY = y`, apex at `topY + triangleSize`); for every other class the
ground ellipse arc stroked from −45° to 235° (the source converts these
degree constants to radians before `ctx.ellipse`), centred at the bottom
mid-point `(x + w/2, y + h)`, with `radiusX = w * 0.7` and
`radiusY = h * 0.12`. -/
def markerFor (d : Detection) (wF hF : ℚ) : MarkerShape :=
  let x := d.x1 * wF
  let y := d.y1 * hF
  let w := (d.x2 - d.x1) * wF
  let h := (d.y2 - d.y1) * hF
  if strToLower d.class_name = "ball" then
    let centerX := x + w/2
    let topY := y
    let triangleSize := min w h * (8/10)
    .triangle (centerX - triangleSize/2) topY (centerX + triangleSize/2) topY
      centerX (topY + triangleSize)
  else
    .arc (x + w/2) (y + h) (w * (7/10)) (h * (12/100)) (-45) 235

/-- A concrete player detection with a 10×10 box at the origin. -/
def dMark : Detection := ⟨0, "", "player", 1, 0, 0, 10, 10, none⟩

/-- C7 (evaluation at the failing input): for the 10×10 player box at unit
viewport scale the code draws the arc at the bottom mid-point `(5, 10)` with
vertical radius `12%` of the height — as the claim says — but with
horizontal radius `7 = 0.7 · w`, not the claimed half width `w/2 = 5` (the
source's own comment says "half the original width" while the code computes
`w * 0.7`). -/
theorem groundMarker_radius_eval :
    markerFor dMark 1 1 = .arc 5 10 7 (6/5) (-45) 235
    ∧ (7 : ℚ) ≠ 10 / 2 := by
  constructor
  · rw [markerFor, dMark]
    rw [if_neg (by decide)]
    norm_num
  · norm_num

/-- The fixed `connections` edge list of src/pages/match/[id].tsx lines
421–456, in source order. -/
def connectionsList : List (String × String) :=
  [("corner_top_left", "left_penalty_box_top_left"),
   ("left_penalty_box_top_left", "left_six_box_top_left"),
   ("left_six_box_top_left", "left_six_box_bottom_left"),
   ("left_six_box_bottom_left", "left_penalty_box_bottom_left"),
   ("left_penalty_box_bottom_left", "corner_bottom_left"),
   ("left_penalty_box_top_left", "left_penalty_box_top_right"),
   ("left_six_box_top_left", "left_six_box_top_right"),
   ("left_six_box_bottom_left", "left_six_box_bottom_right"),
   ("left_penalty_box_bottom_left", "left_penalty_box_bottom_right"),
   ("left_six_box_top_right", "left_six_box_bottom_right"),
   ("left_penalty_box_top_right", "left_penalty_box_center_top"),
   ("left_penalty_box_center_top", "left_penalty_box_center_bottom"),
   ("left_penalty_box_center_bottom", "left_penalty_box_bottom_right"),
   ("center_top", "center_circle_top"),
   ("center_circle_top", "center_circle_bottom"),
   ("center_circle_bottom", "center_bottom"),
   ("corner_top_left", "center_top"),
   ("corner_bottom_left", "center_bottom"),
   ("center_top", "corner_top_right"),
   ("center_bottom", "corner_bottom_right"),
   ("corner_top_right", "right_penalty_box_top_right"),
   ("right_penalty_box_top_right", "right_six_box_top_right"),
   ("right_six_box_top_right", "right_six_box_bottom_right"),
   ("right_six_box_bottom_right", "right_penalty_box_bottom_right"),
   ("right_penalty_box_bottom_right", "corner_bottom_right"),
   ("right_penalty_box_top_right", "right_penalty_box_top_left"),
   ("right_six_box_top_right", "right_six_box_top_left"),
   ("right_six_box_bottom_right", "right_six_box_bottom_left"),
   ("right_penalty_box_bottom_right", "right_penalty_box_bottom_left"),
   ("right_six_box_top_left", "right_six_box_bottom_left"),
   ("right_penalty_box_top_left", "right_penalty_box_center_top"),
   ("right_penalty_box_center_top", "right_penalty_box_center_bottom"),
   ("right_penalty_box_center_bottom", "right_penalty_box_bottom_left")]

/-- The keypoint map of lines 405–408: `new Map(seg.keypoints_img.map(kp =>
[kp.name, {x: kp.x * wFactor, y: kp.y * hFactor}]))`.  In a JS `Map` a later
entry with the same name overwrites an earlier one, hence the reverse
search. -/
def kpGet (seg : HomographySegment) (wF hF : ℚ) (n : String) : Option (ℚ × ℚ) :=
  (seg.keypoints_img.reverse.find? fun kp => decide (kp.name = n)).map
    fun kp => (kp.x * wF, kp.y * hF)

/-- The skeleton dots of lines 411–418: every keypoint of the segment,
scaled to the viewport — drawn for whatever `H` the segment carries. -/
def skeletonDots (seg : HomographySegment) (wF hF : ℚ) : List (ℚ × ℚ) :=
  seg.keypoints_img.map fun kp => (kp.x * wF, kp.y * hF)

/-- The skeleton edges of lines 458–470: each fixed connection whose two
named endpoints are both present in the keypoint map. -/
def skeletonEdges (seg : HomographySegment) (wF hF : ℚ) : List ((ℚ × ℚ) × (ℚ × ℚ)) :=
  connectionsList.filterMap fun c =>
    match kpGet seg wF hF c.1, kpGet seg wF hF c.2 with
    | some p, some q => some (p, q)
    | _, _ => none

/-- The sampled polyline of `drawPitchLine` (lines 340–357, inside the
never-invoked `drawPitchOverlay` helper): 65 samples along the pitch-space
line, each projected through the given inverse homography, degenerate
samples dropped individually. -/
def pitchLinePts (Hinv : Mat3) (wF hF : ℚ) (p1 p2 : ℚ × ℚ) : List (ℚ × ℚ) :=
  (List.range 65).filterMap fun s =>
    let t := (s : ℚ) / 64
    let X := p1.1 + (p2.1 - p1.1) * t
    let Y := p1.2 + (p2.2 - p1.2) * t
    (projectPitchToImage Hinv X Y).map fun p => (p.1 * wF, p.2 * hF)

/-- `drawPitchLine` strokes its polyline exactly when at least 2 samples
survive (`if (pts.length < 2) return`). -/
def pitchLineDrawn (Hinv : Mat3) (wF hF : ℚ) (p1 p2 : ℚ × ℚ) : Bool :=
  decide (2 ≤ (pitchLinePts Hinv wF hF p1 p2).length)

/-- The all-zero matrix: a singular homography. -/
def matZero : Mat3 := ⟨0, 0, 0, 0, 0, 0, 0, 0, 0⟩

/-- A segment whose `H` is singular but which still carries one measured
keypoint. -/
def segSingular : HomographySegment := ⟨0, 10, matZero, [⟨"corner_top_left", 3, 4⟩]⟩

/-- Counterexample to C8 as stated: with the overlay enabled and
`segSingular` active, the skeleton dot `(3, 4)` is drawn from the stored
`keypoints_img` even though `invert3x3` fails on the segment's `H`, so the
drawn point is not obtained by projecting anything through `invert(H)`. -/
theorem skeleton_not_projected_counterexample :
    ¬ (∀ p ∈ skeletonDots segSingular 1 1,
        ∃ Hi X Y, invert3x3 segSingular.H = some Hi
          ∧ (projectPitchToImage Hi X Y).map (fun q => (q.1 * 1, q.2 * 1)) = some p) := by
  intro hcl
  have hp : ((3 : ℚ), (4 : ℚ)) ∈ skeletonDots segSingular 1 1 := by
    norm_num [skeletonDots, segSingular]
  obtain ⟨Hi, X, Y, hinv, -⟩ := hcl _ hp
  have hnone : invert3x3 segSingular.H = none := by
    norm_num [invert3x3, segSingular, matZero, isFiniteQ]
  rw [hnone] at hinv
  exact Option.noConfusion hinv

/-- C8 (amended): in the overlay actually drawn by `drawBoxes`, the skeleton
dots are the segment's stored keypoints scaled to the viewport, and a
connection edge is drawn exactly when both of its named endpoints are
present in the keypoint map — a missing or degenerate point omits only the
edges naming it.  In the separate (uncalled) `drawPitchOverlay` helper, a
sampled pitch line drops degenerate projections individually and is stroked
exactly when at least 2 of its 65 samples survive. -/
theorem skeleton_edges_spec :
    (∀ (seg : HomographySegment) (wF hF : ℚ),
      skeletonDots seg wF hF = seg.keypoints_img.map fun kp => (kp.x * wF, kp.y * hF))
    ∧ (∀ (seg : HomographySegment) (wF hF : ℚ) (p q : ℚ × ℚ),
      (p, q) ∈ skeletonEdges seg wF hF
        ↔ ∃ c ∈ connectionsList,
            kpGet seg wF hF c.1 = some p ∧ kpGet seg wF hF c.2 = some q)
    ∧ (∀ (Hinv : Mat3) (wF hF : ℚ) (p1 p2 : ℚ × ℚ),
      pitchLineDrawn Hinv wF hF p1 p2 = true
        ↔ 2 ≤ (pitchLinePts Hinv wF hF p1 p2).length) := by
  refine ⟨fun _ _ _ => rfl, ?_, ?_⟩
  · intro seg wF hF p q
    unfold skeletonEdges
    rw [List.mem_filterMap]
    constructor
    · rintro ⟨c, hc, hm⟩
      refine ⟨c, hc, ?_⟩
      cases h1 : kpGet seg wF hF c.1 with
      | none => rw [h1] at hm; exact Option.noConfusion hm
      | some a =>
        cases h2 : kpGet seg wF hF c.2 with
        | none => rw [h1, h2] at hm; exact Option.noConfusion hm
        | some b =>
          rw [h1, h2] at hm
          obtain ⟨rfl, rfl⟩ := Prod.mk.injEq .. ▸ Option.some.inj hm
          exact ⟨rfl, rfl⟩
    · rintro ⟨c, hc, h1, h2⟩
      exact ⟨c, hc, by rw [h1, h2]⟩
  · intro Hinv wF hF p1 p2
    unfold pitchLineDrawn
    exact decide_eq_true_iff

/-- `PITCH_M = 105` (src/pages/match/[id].tsx line 232): pitch length in
metres. -/
def PITCH_M : ℚ := 105

/-- `PITCH_N = 68` (line 233): pitch width in metres. -/
def PITCH_N : ℚ := 68

/-- Modelled from the spec: the Radar Renderer (spec §4.6) is not among the
files under src/.  Per the spec it projects a player detection through the
active segment's forward `H` and draws the result only when
`0 ≤ pitchX ≤ PITCH_LENGTH` and `0 ≤ pitchY ≤ PITCH_WIDTH`, bounds
inclusive (`PITCH_LENGTH`/`PITCH_WIDTH` being the repository's
`PITCH_M`/`PITCH_N`). -/
def radarDraws (H : Mat3) (px py : ℚ) : Option (ℚ × ℚ) :=
  match projectPitchToImage H px py with
  | none => none
  | some p => if 0 ≤ p.1 ∧ p.1 ≤ PITCH_M ∧ 0 ≤ p.2 ∧ p.2 ≤ PITCH_N then some p else none

/-- C9: the radar draws a projected detection exactly when the projection
succeeds and lands inside the inclusive pitch bounds; on the boundary
`(105, 34)` it is drawn, at `(105.01, 34)` it is not. -/
theorem radar_clip_spec :
    (∀ (H : Mat3) (px py : ℚ) (q : ℚ × ℚ),
      radarDraws H px py = some q
        ↔ projectPitchToImage H px py = some q
          ∧ 0 ≤ q.1 ∧ q.1 ≤ PITCH_M ∧ 0 ≤ q.2 ∧ q.2 ≤ PITCH_N)
    ∧ radarDraws idMat 105 34 = some (105, 34)
    ∧ radarDraws idMat (10501/100) 34 = none := by
  refine ⟨?_, ?_, ?_⟩
  · intro H px py q
    unfold radarDraws
    cases hp : projectPitchToImage H px py with
    | none => simp
    | some p =>
      dsimp only
      split_ifs with hin
      · constructor
        · intro hq
          obtain rfl := Option.some.inj hq
          exact ⟨rfl, hin⟩
        · rintro ⟨hq, -⟩
          exact hq
      · constructor
        · intro hq
          exact absurd hq (by simp)
        · rintro ⟨hq, hbounds⟩
          obtain rfl := Option.some.inj hq
          exact absurd hbounds hin
  · have hproj : projectPitchToImage idMat 105 34 = some (105, 34) := by
      norm_num [projectPitchToImage, isFiniteQ, idMat, Prod.mk.injEq]
    unfold radarDraws
    rw [hproj]
    dsimp only
    rw [if_pos (by norm_num [PITCH_M, PITCH_N])]
  · have hproj : projectPitchToImage idMat (10501/100) 34 = some (10501/100, 34) := by
      norm_num [projectPitchToImage, isFiniteQ, idMat, Prod.mk.injEq]
    unfold radarDraws
    rw [hproj]
    dsimp only
    rw [if_neg (by norm_num [PITCH_M, PITCH_N])]
